import Mathlib

/-
Verification of the VisionF1 pipeline data-synchronization core.

The development shallowly embeds the parts of the repository that carry the
invariants under study:

* mongodb_utils.upsert_to_mongo — the upsert engine: documents are Python
  dicts, modelled as ordered association lists from field name to string
  value; the target collection is an association list from identity value to
  stored document.  The engine builds one UpdateOne(filter, set/setOnInsert,
  upsert=True) per document (raising KeyError while building if a document
  lacks the identity field or the update timestamp, before any write), then
  applies the operations of the bulk in order, reporting matched / modified /
  upserted counts as MongoDB does (modified counts only writes that change
  the stored document).
* race_pace.process_race_pace_data — the grouped ranking step
  (groupby(season, round).rank(method="min", ascending=True).astype(int)),
  with metric values as rationals; a null metric makes the computation fail,
  as the int cast of a null rank does in the code.
* race_pace.get_most_recent_event — the temporal resolver over a calendar
  provider; event dates are Option-valued (none models a date that
  pd.to_datetime(errors="coerce") turned into NaT).
* race_pace.main — an effect-trace model recording the order of provider
  calls, store connections, writes, log lines and raises.
-/

namespace VisionF1

/-! ### Association lists

Python dicts and the MongoDB collection are both modelled as ordered
association lists with first-occurrence lookup and replace-first-or-append
update. -/

/-- Lookup of the first binding of key k, as a Python dict access. -/
def alookup {β : Type} (l : List (String × β)) (k : String) : Option β :=
  match l with
  | [] => none
  | p :: rest => if p.1 = k then some p.2 else alookup rest k

/-- Set key k to value v: replace the first binding in place, or append. -/
def aset {β : Type} (l : List (String × β)) (k : String) (v : β) :
    List (String × β) :=
  match l with
  | [] => [(k, v)]
  | p :: rest => if p.1 = k then (k, v) :: rest else p :: aset rest k v

/-- Keys of an association list, in order, duplicates kept. -/
def akeys {β : Type} (l : List (String × β)) : List String :=
  l.map Prod.fst

theorem alookup_aset_self {β : Type} (l : List (String × β)) (k : String)
    (v : β) : alookup (aset l k v) k = some v := by
  induction l with
  | nil => simp [aset, alookup]
  | cons p rest ih =>
    by_cases h : p.1 = k
    · simp [aset, alookup, h]
    · simp [aset, alookup, h, ih]

theorem alookup_aset_ne {β : Type} (l : List (String × β)) {k k' : String}
    (v : β) (h : k' ≠ k) : alookup (aset l k v) k' = alookup l k' := by
  induction l with
  | nil => simp [aset, alookup, Ne.symm h]
  | cons p rest ih =>
    by_cases hp : p.1 = k
    · simp [aset, alookup, hp, Ne.symm h]
    · simp [aset, alookup, hp, ih]

theorem aset_self {β : Type} {l : List (String × β)} {k : String} {v : β}
    (h : alookup l k = some v) : aset l k v = l := by
  induction l with
  | nil => simp [alookup] at h
  | cons p rest ih =>
    obtain ⟨pk, pv⟩ := p
    by_cases hp : pk = k
    · subst hp
      simp [alookup] at h
      simp [aset, h]
    · simp [alookup, hp] at h
      simp [aset, hp, ih h]

theorem alookup_eq_none_iff {β : Type} (l : List (String × β)) (k : String) :
    alookup l k = none ↔ k ∉ akeys l := by
  induction l with
  | nil => simp [alookup, akeys]
  | cons p rest ih =>
    by_cases hp : p.1 = k
    · simp [alookup, hp, akeys]
    · simp [alookup, hp, akeys, ih, Ne.symm hp]

theorem alookup_ne_none_of_mem {β : Type} {l : List (String × β)}
    {p : String × β} (h : p ∈ l) : alookup l p.1 ≠ none := by
  induction l with
  | nil => simp at h
  | cons q rest ih =>
    rcases List.mem_cons.mp h with h | h
    · subst h
      simp [alookup]
    · by_cases hq : q.1 = p.1
      · simp [alookup, hq]
      · simp [alookup, hq, ih h]

/-! ### Documents and the collection -/

/-- A Document: the ordered field list of a Python dict headed for MongoDB. -/
abbrev Doc := List (String × String)

/-- The target collection, addressed by identity-field value. -/
abbrev Store := List (String × Doc)

/-- Application of a $set clause: every field of upd overwrites (or is added
to) the stored document, in field order, as MongoDB does. -/
def applySet (d : Doc) (upd : Doc) : Doc :=
  upd.foldl (fun acc p => aset acc p.1 p.2) d

theorem applySet_nil (d : Doc) : applySet d [] = d := rfl

theorem applySet_cons (d : Doc) (p : String × String) (upd : Doc) :
    applySet d (p :: upd) = applySet (aset d p.1 p.2) upd := rfl

theorem applySet_get_notin {k : String} {upd : Doc} (d : Doc)
    (h : k ∉ akeys upd) : alookup (applySet d upd) k = alookup d k := by
  induction upd generalizing d with
  | nil => rfl
  | cons p rest ih =>
    simp only [akeys, List.map_cons, List.mem_cons] at h
    push_neg at h
    rw [applySet_cons, ih (aset d p.1 p.2) h.2, alookup_aset_ne _ _ h.1]

theorem applySet_get_mem {k v : String} {upd : Doc} (d : Doc)
    (hnd : (akeys upd).Nodup) (h : (k, v) ∈ upd) :
    alookup (applySet d upd) k = some v := by
  induction upd generalizing d with
  | nil => simp at h
  | cons p rest ih =>
    simp only [akeys, List.map_cons, List.nodup_cons] at hnd
    rcases List.mem_cons.mp h with h | h
    · subst h
      rw [applySet_cons, applySet_get_notin _ hnd.1, alookup_aset_self]
    · exact ih (aset d p.1 p.2) hnd.2 h

theorem applySet_self {upd : Doc} (d : Doc)
    (h : ∀ p ∈ upd, alookup d p.1 = some p.2) : applySet d upd = d := by
  induction upd with
  | nil => rfl
  | cons p rest ih =>
    rw [applySet_cons, aset_self (h p (List.mem_cons_self p rest))]
    exact ih (fun q hq => h q (List.mem_cons_of_mem p hq))

/-! ### The upsert engine (mongodb_utils.upsert_to_mongo)

The source builds, for each document, an
UpdateOne(filter_q, set-and-setOnInsert, upsert=True) operation, raising
KeyError at operation-construction time (before bulk_write is reached) if a
document lacks the identity field or the update timestamp, and then executes
the list through an unordered bulk write, applied here operation by
operation in list order. -/

/-- One UpdateOne operation of the bulk: filter value on the identity field,
the $set document, and the value $setOnInsert gives the creation stamp. -/
structure UpdateOp where
  filterVal : String
  setDoc : Doc
  createdVal : String
deriving DecidableEq

/-- Counts reported after bulk_write: matched, modified (only writes that
changed the stored document), and upserted (inserted) documents. -/
structure SyncReport where
  matched : Nat
  modified : Nat
  upserted : Nat
deriving DecidableEq

/-- Pointwise sum of two reports. -/
def SyncReport.add (a b : SyncReport) : SyncReport :=
  ⟨a.matched + b.matched, a.modified + b.modified, a.upserted + b.upserted⟩

/-- Operation construction of upsert_to_mongo: filter_q reads
doc[unique_key] and $setOnInsert reads doc["_updated_at"]; a missing key
raises KeyError at the first offending document, before any write. -/
def buildOps (ukey : String) (docs : List Doc) :
    Except String (List UpdateOp) :=
  match docs with
  | [] => .ok []
  | d :: rest =>
    match alookup d ukey with
    | none => .error ("KeyError: " ++ ukey)
    | some kv =>
      match alookup d "_updated_at" with
      | none => .error "KeyError: _updated_at"
      | some ts => (buildOps ukey rest).map (fun ops => UpdateOp.mk kv d ts :: ops)

/-- One conditional write: if a stored document matches the filter value,
$set overwrites its fields ($setOnInsert is ignored), counting it modified
only when the content changes; otherwise a new document is inserted from the
$set fields plus the _created_at field from $setOnInsert. -/
def applyOne (st : Store) (op : UpdateOp) : Store × SyncReport :=
  match alookup st op.filterVal with
  | some old =>
    let newDoc := applySet old op.setDoc
    (aset st op.filterVal newDoc, ⟨1, if newDoc = old then 0 else 1, 0⟩)
  | none =>
    let inserted := aset (applySet [] op.setDoc) "_created_at" op.createdVal
    (aset st op.filterVal inserted, ⟨0, 0, 1⟩)

/-- Sequential execution of the bulk, accumulating the report. -/
def runOps (ops : List UpdateOp) (st : Store) : Store × SyncReport :=
  match ops with
  | [] => (st, ⟨0, 0, 0⟩)
  | op :: rest =>
    let sr := applyOne st op
    let tail := runOps rest sr.1
    (tail.1, SyncReport.add sr.2 tail.2)

/-- The engine body of upsert_to_mongo after a successful connection: build
all operations (KeyError aborts the whole call with no write), then execute
the bulk; an empty batch is a no-op with zero counts. -/
def upsertToMongo (docs : List Doc) (ukey : String) (st : Store) :
    Except String (Store × SyncReport) :=
  (buildOps ukey docs).map (fun ops => runOps ops st)

/-- Helper making the successful operation list explicit. -/
def mkOp (ukey : String) (d : Doc) : UpdateOp :=
  ⟨(alookup d ukey).getD "", d, (alookup d "_updated_at").getD ""⟩

theorem buildOps_ok {ukey : String} {docs : List Doc}
    (hk : ∀ d ∈ docs, alookup d ukey ≠ none)
    (ht : ∀ d ∈ docs, alookup d "_updated_at" ≠ none) :
    buildOps ukey docs = .ok (docs.map (mkOp ukey)) := by
  induction docs with
  | nil => rfl
  | cons d rest ih =>
    have hk1 := hk d (List.mem_cons_self d rest)
    have ht1 := ht d (List.mem_cons_self d rest)
    rw [buildOps]
    cases hkv : alookup d ukey with
    | none => exact absurd hkv hk1
    | some kv =>
      cases hts : alookup d "_updated_at" with
      | none => exact absurd hts ht1
      | some ts =>
        rw [ih (fun x hx => hk x (List.mem_cons_of_mem d hx))
          (fun x hx => ht x (List.mem_cons_of_mem d hx))]
        simp [Except.map, mkOp, hkv, hts]

theorem buildOps_error_of_missing {ukey : String} {docs : List Doc}
    (h : ∃ d ∈ docs, alookup d ukey = none) :
    ∃ msg, buildOps ukey docs = .error msg := by
  induction docs with
  | nil => simp at h
  | cons d rest ih =>
    obtain ⟨bad, hbad, hnone⟩ := h
    rcases List.mem_cons.mp hbad with h1 | h1
    · subst h1
      exact ⟨"KeyError: " ++ ukey, by rw [buildOps, hnone]⟩
    · rw [buildOps]
      cases hkv : alookup d ukey with
      | none => exact ⟨"KeyError: " ++ ukey, rfl⟩
      | some kv =>
        cases hts : alookup d "_updated_at" with
        | none => exact ⟨"KeyError: _updated_at", rfl⟩
        | some ts =>
          obtain ⟨msg, hmsg⟩ := ih ⟨bad, h1, hnone⟩
          exact ⟨msg, by rw [hmsg]; rfl⟩

theorem mem_of_alookup_eq_some {β : Type} {l : List (String × β)}
    {k : String} {v : β} (h : alookup l k = some v) : (k, v) ∈ l := by
  induction l with
  | nil => simp [alookup] at h
  | cons p rest ih =>
    obtain ⟨pk, pv⟩ := p
    by_cases hp : pk = k
    · simp [alookup, hp] at h
      subst hp
      subst h
      exact List.mem_cons_self _ _
    · simp [alookup, hp] at h
      exact List.mem_cons_of_mem _ (ih h)

/-- Transformation of a single collection entry by one operation. -/
def stepDoc (cur : Option Doc) (op : UpdateOp) : Option Doc :=
  match cur with
  | some old => some (applySet old op.setDoc)
  | none => some (aset (applySet [] op.setDoc) "_created_at" op.createdVal)

theorem applyOne_lookup_self (st : Store) (op : UpdateOp) :
    alookup (applyOne st op).1 op.filterVal =
      stepDoc (alookup st op.filterVal) op := by
  cases h : alookup st op.filterVal <;>
    simp [applyOne, h, stepDoc, alookup_aset_self]

theorem applyOne_lookup_ne {kv : String} (st : Store) (op : UpdateOp)
    (h : kv ≠ op.filterVal) :
    alookup (applyOne st op).1 kv = alookup st kv := by
  cases h2 : alookup st op.filterVal <;>
    simp [applyOne, h2, alookup_aset_ne _ _ h]

theorem runOps_lookup (ops : List UpdateOp) (st : Store) (kv : String) :
    alookup (runOps ops st).1 kv =
      (ops.filter (fun op => op.filterVal = kv)).foldl stepDoc
        (alookup st kv) := by
  induction ops generalizing st with
  | nil => rfl
  | cons op rest ih =>
    by_cases h : op.filterVal = kv
    · subst h
      simp [runOps, List.filter_cons, ih, applyOne_lookup_self]
    · have h' : kv ≠ op.filterVal := fun hk => h hk.symm
      simp [runOps, List.filter_cons, h, ih, applyOne_lookup_ne st op h']

/-- A stored entry already reflecting every $set field of an operation. -/
def opSettled (st : Store) (op : UpdateOp) : Prop :=
  ∃ d, alookup st op.filterVal = some d ∧
    ∀ p ∈ op.setDoc, alookup d p.1 = some p.2

theorem applyOne_settled {st : Store} {op : UpdateOp} (h : opSettled st op) :
    applyOne st op = (st, ⟨1, 0, 0⟩) := by
  obtain ⟨d, hd, hv⟩ := h
  have hs : applySet d op.setDoc = d := applySet_self d hv
  simp [applyOne, hd, hs, aset_self hd]

theorem runOps_settled {ops : List UpdateOp} {st : Store}
    (h : ∀ op ∈ ops, opSettled st op) :
    runOps ops st = (st, ⟨ops.length, 0, 0⟩) := by
  induction ops with
  | nil => rfl
  | cons op rest ih =>
    simp [runOps, applyOne_settled (h op (List.mem_cons_self op rest)),
      ih (fun o ho => h o (List.mem_cons_of_mem op ho)), SyncReport.add,
      Nat.add_comm]

theorem filter_eq_singleton_of_nodup_map {α β : Type} [DecidableEq β]
    {f : α → β} {l : List α} (h : (l.map f).Nodup) {a : α} (ha : a ∈ l) :
    l.filter (fun x => f x = f a) = [a] := by
  induction l with
  | nil => simp at ha
  | cons b rest ih =>
    simp only [List.map_cons, List.nodup_cons] at h
    rcases List.mem_cons.mp ha with hab | hmem
    · subst hab
      have hnone : rest.filter (fun x => f x = f a) = [] := by
        rw [List.filter_eq_nil_iff]
        intro x hx
        simp only [decide_eq_true_eq]
        intro hfx
        exact h.1 (hfx ▸ List.mem_map_of_mem f hx)
      simp [List.filter_cons, hnone]
    · have hne : ¬(f b = f a) := by
        intro hfb
        exact h.1 (hfb ▸ List.mem_map_of_mem f hmem)
      simp [List.filter_cons, hne, ih h.2 hmem]

theorem stepDoc_good {cur : Option Doc} {op : UpdateOp}
    (hnd : (akeys op.setDoc).Nodup)
    (hc : "_created_at" ∉ akeys op.setDoc) :
    ∃ d, stepDoc cur op = some d ∧
      ∀ p ∈ op.setDoc, alookup d p.1 = some p.2 := by
  cases cur with
  | some old =>
    refine ⟨applySet old op.setDoc, rfl, fun p hp => ?_⟩
    exact applySet_get_mem old hnd (by simpa using hp)
  | none =>
    refine ⟨aset (applySet [] op.setDoc) "_created_at" op.createdVal, rfl,
      fun p hp => ?_⟩
    have hne : p.1 ≠ "_created_at" := by
      intro hk
      exact hc (hk ▸ List.mem_map_of_mem Prod.fst hp)
    rw [alookup_aset_ne _ _ hne]
    exact applySet_get_mem [] hnd (by simpa using hp)

theorem runOps_settles {ops : List UpdateOp} {st : Store}
    (hnodup : (ops.map (fun op => op.filterVal)).Nodup)
    (hops : ∀ op ∈ ops,
      (akeys op.setDoc).Nodup ∧ "_created_at" ∉ akeys op.setDoc) :
    ∀ op ∈ ops, opSettled (runOps ops st).1 op := by
  intro op hop
  obtain ⟨d, hd, hv⟩ :=
    @stepDoc_good (alookup st op.filterVal) op (hops op hop).1
      (hops op hop).2
  refine ⟨d, ?_, hv⟩
  rw [runOps_lookup, filter_eq_singleton_of_nodup_map hnodup hop]
  simpa using hd

/-! ### Claim C1: conditional write and creation-timestamp semantics -/

/-- C1: for every document processed by the upsert engine, if the collection
already holds a document under the same identity value, the operation
overwrites all of the new document's fields onto it and leaves _created_at
unchanged; if none exists, it inserts the full document with _created_at
set to the operation's $setOnInsert value (the document's _updated_at); and
over two successive syncs of the same identity key, the first leaves
_created_at equal to _updated_at while the second keeps _created_at and
advances _updated_at. -/
theorem upsert_conditional_write :
    (∀ (st : Store) (op : UpdateOp) (old : Doc),
      alookup st op.filterVal = some old →
      (akeys op.setDoc).Nodup →
      "_created_at" ∉ akeys op.setDoc →
      alookup (applyOne st op).1 op.filterVal =
        some (applySet old op.setDoc) ∧
      (∀ p ∈ op.setDoc, alookup (applySet old op.setDoc) p.1 = some p.2) ∧
      alookup (applySet old op.setDoc) "_created_at" =
        alookup old "_created_at") ∧
    (∀ (st : Store) (op : UpdateOp),
      alookup st op.filterVal = none →
      (akeys op.setDoc).Nodup →
      "_created_at" ∉ akeys op.setDoc →
      ∃ d, alookup (applyOne st op).1 op.filterVal = some d ∧
        (∀ p ∈ op.setDoc, alookup d p.1 = some p.2) ∧
        alookup d "_created_at" = some op.createdVal) ∧
    (∀ (st : Store) (doc doc' : Doc) (ukey kv ts ts' : String),
      alookup doc ukey = some kv →
      alookup doc "_updated_at" = some ts →
      alookup doc "_created_at" = none →
      (akeys doc).Nodup →
      alookup doc' ukey = some kv →
      alookup doc' "_updated_at" = some ts' →
      alookup doc' "_created_at" = none →
      (akeys doc').Nodup →
      alookup st kv = none →
      ∃ st1 rep1 st2 rep2 d1 d2,
        upsertToMongo [doc] ukey st = .ok (st1, rep1) ∧
        alookup st1 kv = some d1 ∧
        alookup d1 "_created_at" = some ts ∧
        alookup d1 "_updated_at" = some ts ∧
        upsertToMongo [doc'] ukey st1 = .ok (st2, rep2) ∧
        alookup st2 kv = some d2 ∧
        alookup d2 "_created_at" = some ts ∧
        alookup d2 "_updated_at" = some ts') := by
  refine ⟨?_, ?_, ?_⟩
  · intro st op old hmatch hndp hcp
    refine ⟨?_, fun p hp => applySet_get_mem old hndp (by simpa using hp), ?_⟩
    · rw [applyOne_lookup_self, hmatch, stepDoc]
    · exact applySet_get_notin old hcp
  · intro st op hnone hndp hcp
    obtain ⟨d, hd, hv⟩ := @stepDoc_good none op hndp hcp
    refine ⟨d, ?_, hv, ?_⟩
    · rw [applyOne_lookup_self, hnone, hd]
    · have hd' : d = aset (applySet [] op.setDoc) "_created_at" op.createdVal := by
        simpa [stepDoc] using hd.symm
      rw [hd', alookup_aset_self]
  · intro st doc doc' ukey kv ts ts' hkv hts hcr hndp hkv' hts' hcr' hndp' hstk
    have hcset : "_created_at" ∉ akeys doc := (alookup_eq_none_iff doc _).mp hcr
    have hcset' : "_created_at" ∉ akeys doc' := (alookup_eq_none_iff doc' _).mp hcr'
    have hb1 : buildOps ukey [doc] = .ok [⟨kv, doc, ts⟩] := by
      simp [buildOps, hkv, hts, Except.map]
    have hb2 : buildOps ukey [doc'] = .ok [⟨kv, doc', ts'⟩] := by
      simp [buildOps, hkv', hts', Except.map]
    refine ⟨aset st kv (aset (applySet [] doc) "_created_at" ts),
      SyncReport.add ⟨0, 0, 1⟩ ⟨0, 0, 0⟩,
      aset (aset st kv (aset (applySet [] doc) "_created_at" ts)) kv
        (applySet (aset (applySet [] doc) "_created_at" ts) doc'),
      SyncReport.add ⟨1, if applySet (aset (applySet [] doc) "_created_at" ts) doc' =
        aset (applySet [] doc) "_created_at" ts then 0 else 1, 0⟩ ⟨0, 0, 0⟩,
      aset (applySet [] doc) "_created_at" ts,
      applySet (aset (applySet [] doc) "_created_at" ts) doc',
      ?_, ?_, ?_, ?_, ?_, ?_, ?_, ?_⟩
    · simp [upsertToMongo, hb1, Except.map, runOps, applyOne, hstk]
    · exact alookup_aset_self _ _ _
    · exact alookup_aset_self _ _ _
    · rw [alookup_aset_ne _ _ (by decide)]
      exact applySet_get_mem [] hndp (mem_of_alookup_eq_some hts)
    · simp [upsertToMongo, hb2, Except.map, runOps, applyOne,
        alookup_aset_self]
    · exact alookup_aset_self _ _ _
    · rw [applySet_get_notin _ hcset', alookup_aset_self]
    · exact applySet_get_mem _ hndp' (mem_of_alookup_eq_some hts')

/-- Concrete document: identity value x, payload v=1, update stamp t1. -/
def docV1 : Doc := [("id", "x"), ("v", "1"), ("_updated_at", "t1")]

/-- Concrete document with the same identity value x but payload v=2. -/
def docV2 : Doc := [("id", "x"), ("v", "2"), ("_updated_at", "t2")]

/-- Concrete document under the distinct identity value y. -/
def docY : Doc := [("id", "y"), ("v", "2"), ("_updated_at", "t1")]

/-- C1 witness: two successive syncs of identity value x through the engine,
first on an empty collection and then with an advanced update stamp. -/
theorem upsert_conditional_write_witness :
    (alookup docV1 "id" = some "x" ∧ alookup docV1 "_updated_at" = some "t1" ∧
      alookup docV2 "_updated_at" = some "t2") ∧
    (∃ st1 rep1 st2 rep2 d1 d2,
      upsertToMongo [docV1] "id" [] = .ok (st1, rep1) ∧
      alookup st1 "x" = some d1 ∧
      alookup d1 "_created_at" = some "t1" ∧
      alookup d1 "_updated_at" = some "t1" ∧
      upsertToMongo [docV2] "id" st1 = .ok (st2, rep2) ∧
      alookup st2 "x" = some d2 ∧
      alookup d2 "_created_at" = some "t1" ∧
      alookup d2 "_updated_at" = some "t2") :=
  ⟨⟨by decide, by decide, by decide⟩,
    upsert_conditional_write.2.2 [] docV1 docV2 "id" "x" "t1" "t2"
      (by decide) (by decide) (by decide) (by decide) (by decide)
      (by decide) (by decide) (by decide) (by decide)⟩

/-! ### Claim C2: a document missing the identity field -/

/-- Batch of five valid documents and one document without the identity
field "id". -/
def batchSix : List Doc :=
  [[("id", "a"), ("_updated_at", "t1")], [("id", "b"), ("_updated_at", "t1")],
   [("id", "c"), ("_updated_at", "t1")], [("id", "d"), ("_updated_at", "t1")],
   [("id", "e"), ("_updated_at", "t1")], [("v", "5"), ("_updated_at", "t1")]]

/-- C2 counterexample: on a batch of 5 valid documents and 1 document
missing the identity field, the engine does not write the 5 valid documents
and report the 1 failure; doc[unique_key] raises KeyError while the
operations are being built, before bulk_write, so the whole call aborts
with no write at all. -/
theorem upsert_missing_key_counterexample :
    upsertToMongo batchSix "id" [] = .error "KeyError: id" := by rfl

/-- C2 (amended): a batch containing a document without the identity field
is aborted wholesale: operation construction raises KeyError before the
bulk write, so none of the sibling documents is written and no per-document
failure report is produced. -/
theorem upsert_missing_key_aborts_batch
    (docs : List Doc) (ukey : String) (st : Store)
    (h : ∃ d ∈ docs, alookup d ukey = none) :
    ∃ msg, upsertToMongo docs ukey st = .error msg := by
  obtain ⟨msg, hmsg⟩ := buildOps_error_of_missing h
  exact ⟨msg, by rw [upsertToMongo, hmsg]; rfl⟩

/-- C2 amended-claim witness: the six-document batch aborts as a whole. -/
theorem upsert_missing_key_aborts_batch_witness :
    (∃ d ∈ batchSix, alookup d "id" = none) ∧
    (∃ msg, upsertToMongo batchSix "id" [] = .error msg) :=
  ⟨by decide, upsert_missing_key_aborts_batch batchSix "id" [] (by decide)⟩

/-! ### Claim C7: idempotence of a repeated identical batch -/

/-- Collection state after syncing the duplicate-key batch once. -/
def dupStore : Store :=
  [("x", [("id", "x"), ("v", "2"), ("_updated_at", "t2"),
    ("_created_at", "t1")])]

/-- C7 counterexample: with a batch holding two documents under the same
identity value x and different payloads (allowed by the engine), a second
identical run yields the same final collection but reports 2 modified
documents, not zero: replaying the first duplicate overwrites the stored
fields of the second and the replayed second overwrites them back. -/
theorem upsert_idempotence_counterexample :
    upsertToMongo [docV1, docV2] "id" [] = .ok (dupStore, ⟨1, 1, 1⟩) ∧
    upsertToMongo [docV1, docV2] "id" dupStore = .ok (dupStore, ⟨2, 2, 0⟩) ∧
    (2 : Nat) ≠ 0 :=
  ⟨by rfl, by rfl, by decide⟩

/-- C7 (amended): for a batch whose documents carry pairwise-distinct
identity values (each with the identity field and _updated_at present,
without _created_at, and without repeated field names), running the engine
twice with the identical batch yields identical final documents and the
second run reports zero modified and zero upserted documents, every
document merely matching. -/
theorem upsert_idempotent_distinct_keys
    (docs : List Doc) (ukey : String) (st : Store)
    (hk : ∀ d ∈ docs, alookup d ukey ≠ none)
    (ht : ∀ d ∈ docs, alookup d "_updated_at" ≠ none)
    (hc : ∀ d ∈ docs, alookup d "_created_at" = none)
    (hnd : ∀ d ∈ docs, (akeys d).Nodup)
    (hdk : (docs.map (fun d => (alookup d ukey).getD "")).Nodup) :
    ∃ st1 rep1, upsertToMongo docs ukey st = .ok (st1, rep1) ∧
      upsertToMongo docs ukey st1 = .ok (st1, ⟨docs.length, 0, 0⟩) := by
  have hbo := buildOps_ok hk ht
  have hmapkeys : (docs.map (mkOp ukey)).map (fun op => op.filterVal) =
      docs.map (fun d => (alookup d ukey).getD "") := by
    simp [List.map_map]
    intro a _
    rfl
  have hopsgood : ∀ op ∈ docs.map (mkOp ukey),
      (akeys op.setDoc).Nodup ∧ "_created_at" ∉ akeys op.setDoc := by
    intro op hop
    obtain ⟨d, hdin, rfl⟩ := List.mem_map.mp hop
    exact ⟨hnd d hdin, (alookup_eq_none_iff d "_created_at").mp (hc d hdin)⟩
  have hsettle :=
    @runOps_settles (docs.map (mkOp ukey)) st (hmapkeys ▸ hdk) hopsgood
  have hrun2 := runOps_settled hsettle
  refine ⟨(runOps (docs.map (mkOp ukey)) st).1,
    (runOps (docs.map (mkOp ukey)) st).2, ?_, ?_⟩
  · simp [upsertToMongo, hbo, Except.map]
  · rw [upsertToMongo, hbo]
    simp [Except.map, hrun2]

/-- C7 amended-claim witness: a two-document batch with distinct identity
values x and y, synced twice from the empty collection. -/
theorem upsert_idempotent_distinct_keys_witness :
    ((∀ d ∈ [docV1, docY], alookup d "id" ≠ none) ∧
      ([docV1, docY].map (fun d => (alookup d "id").getD "")).Nodup) ∧
    (∃ st1 rep1, upsertToMongo [docV1, docY] "id" [] = .ok (st1, rep1) ∧
      upsertToMongo [docV1, docY] "id" st1 =
        .ok (st1, ⟨[docV1, docY].length, 0, 0⟩)) :=
  ⟨⟨by decide, by decide⟩,
    upsert_idempotent_distinct_keys [docV1, docY] "id" []
      (by decide) (by decide) (by decide) (by decide) (by decide)⟩

/-! ### Claim C8: duplicate identity values inside one batch -/

/-- C8: a batch may contain several documents with the same identity value;
the engine accepts it, and after the run the stored document under that
value carries the fields of the last such document in batch order. -/
theorem upsert_last_duplicate_wins
    (docs : List Doc) (ukey kv : String) (st : Store)
    (pre : List Doc) (dlast : Doc)
    (hk : ∀ d ∈ docs, alookup d ukey ≠ none)
    (ht : ∀ d ∈ docs, alookup d "_updated_at" ≠ none)
    (hnd : (akeys dlast).Nodup)
    (hc : alookup dlast "_created_at" = none)
    (hfil : docs.filter (fun d => alookup d ukey = some kv) = pre ++ [dlast]) :
    ∃ stR rep d, upsertToMongo docs ukey st = .ok (stR, rep) ∧
      alookup stR kv = some d ∧ ∀ p ∈ dlast, alookup d p.1 = some p.2 := by
  have hbo := buildOps_ok hk ht
  refine ⟨(runOps (docs.map (mkOp ukey)) st).1,
    (runOps (docs.map (mkOp ukey)) st).2, ?_⟩
  have hops : (docs.map (mkOp ukey)).filter (fun op => op.filterVal = kv) =
      (docs.filter (fun d => alookup d ukey = some kv)).map (mkOp ukey) := by
    rw [List.filter_map]
    refine congrArg _ (List.filter_congr ?_)
    intro d hd
    cases hkd : alookup d ukey with
    | none => exact absurd hkd (hk d hd)
    | some w => simp [Function.comp, mkOp, hkd]
  have hcset : "_created_at" ∉ akeys dlast :=
    (alookup_eq_none_iff dlast _).mp hc
  obtain ⟨d, hd, hv⟩ :=
    @stepDoc_good (List.foldl stepDoc (alookup st kv) (pre.map (mkOp ukey)))
      (mkOp ukey dlast) hnd hcset
  refine ⟨d, ?_, ?_, hv⟩
  · simp [upsertToMongo, hbo, Except.map]
  · rw [runOps_lookup, hops, hfil, List.map_append, List.foldl_append]
    simpa using hd

/-- C8 witness: a batch with two documents under the identity value x;
after the run the stored document holds the second document's fields. -/
theorem upsert_last_duplicate_wins_witness :
    ([docV1, docV2].filter (fun d => alookup d "id" = some "x") =
      [docV1] ++ [docV2]) ∧
    (∃ stR rep d, upsertToMongo [docV1, docV2] "id" [] = .ok (stR, rep) ∧
      alookup stR "x" = some d ∧ ∀ p ∈ docV2, alookup d p.1 = some p.2) :=
  ⟨by decide,
    upsert_last_duplicate_wins [docV1, docV2] "id" "x" [] [docV1] docV2
      (by decide) (by decide) (by decide) (by decide) (by decide)⟩

/-! ### The ranking aggregator (race_pace.process_race_pace_data)

The source collects one measurement per driver, replaces NaN by None over
the whole frame, and then computes

  df.groupby(["season", "round"])["avg_laptime"].rank(method="min",
    ascending=True).astype(int)

Lap-time metric values are modelled as rationals (the ranking only compares
them).  A missing metric is an Option none.  On an empty frame the groupby
raises KeyError (the empty frame has no season column); when some metric is
None the column is object-typed with a null, and the rank/astype(int) step
raises rather than producing a rank, which the model renders as an error
value.  Otherwise pandas min-rank gives every measurement one plus the
number of same-group measurements with a strictly smaller metric. -/

/-- One race-pace measurement: its (season, round) ranking group, the
participant, and the avg_laptime metric (none models a null). -/
structure RaceMeasure where
  season : Int
  round : Int
  driver : String
  avg : Option ℚ
deriving DecidableEq

/-- Membership of the same (season, round) ranking group. -/
def sameGroup (a b : RaceMeasure) : Prop :=
  a.season = b.season ∧ a.round = b.round

instance (a b : RaceMeasure) : Decidable (sameGroup a b) := by
  unfold sameGroup
  infer_instance

/-- Test that a measurement counts below metric value v inside m's group. -/
def isBelow (m' m : RaceMeasure) (v : ℚ) : Bool :=
  decide (sameGroup m' m) &&
    match m'.avg with
    | some w => decide (w < v)
    | none => false

/-- Pandas min-rank of metric value v inside m's group: one plus the number
of same-group measurements with a strictly smaller non-null metric. -/
def minRank (ms : List RaceMeasure) (m : RaceMeasure) (v : ℚ) : Nat :=
  1 + ms.countP (fun m' => isBelow m' m v)

/-- Number of same-group measurements whose metric equals v exactly. -/
def tieCount (ms : List RaceMeasure) (m : RaceMeasure) (v : ℚ) : Nat :=
  ms.countP (fun m' => decide (sameGroup m' m) && decide (m'.avg = some v))

/-- The race_pace_position computation: KeyError on an empty frame, a
rank-cast error when any metric is null, else the per-measurement
min-ranks. -/
def racePacePositions (ms : List RaceMeasure) :
    Except String (List (RaceMeasure × Nat)) :=
  if ms.isEmpty then .error "KeyError: season"
  else if ms.any (fun m => m.avg = none) then
    .error "IntCastingNaNError"
  else .ok (ms.map (fun m => (m, minRank ms m (m.avg.getD 0))))

theorem countP_congr {α : Type} {l : List α} {p q : α → Bool}
    (h : ∀ a ∈ l, p a = q a) : l.countP p = l.countP q := by
  induction l with
  | nil => rfl
  | cons a t ih =>
    simp [List.countP_cons, h a (List.mem_cons_self a t),
      ih (fun x hx => h x (List.mem_cons_of_mem a hx))]

theorem countP_or_disjoint {α : Type} (l : List α) (p q : α → Bool)
    (h : ∀ a ∈ l, ¬(p a = true ∧ q a = true)) :
    l.countP (fun a => p a || q a) = l.countP p + l.countP q := by
  induction l with
  | nil => rfl
  | cons a t ih =>
    have hh := h a (List.mem_cons_self a t)
    have iht := ih (fun x hx => h x (List.mem_cons_of_mem a hx))
    simp only [List.countP_cons, iht]
    cases hp : p a <;> cases hq : q a <;>
      simp [hp, hq] at hh ⊢ <;> omega

theorem sameGroup_trans_left {a b m : RaceMeasure} (h : sameGroup b m) :
    sameGroup a b ↔ sameGroup a m := by
  obtain ⟨h1, h2⟩ := h
  unfold sameGroup
  rw [h1, h2]

/-- Measurement A with metric 10.0 in group (2024, 10). -/
def exA : RaceMeasure := ⟨2024, 10, "A", some 10⟩

/-- Measurement B with metric 10.0 in group (2024, 10). -/
def exB : RaceMeasure := ⟨2024, 10, "B", some 10⟩

/-- Measurement C with metric 11.0 in group (2024, 10). -/
def exC : RaceMeasure := ⟨2024, 10, "C", some 11⟩

/-- The spec's ranking example group. -/
def raceExample : List RaceMeasure := [exA, exB, exC]

/-! ### Claim C3: minimum-rank ties, and resumption at tied rank plus
tie count -/

/-- C3: when the ranking computation succeeds (non-empty input, no null
metric), every measurement's race_pace_position is one plus the number of
strictly smaller metrics within its own (season, round) group; hence ties
within a group share the minimal rank, a rank of 1 means no same-group
metric is smaller, and the next distinct value resumes at the tied rank
plus the tie count; the group A:10, B:10, C:11 yields ranks 1, 1, 3. -/
theorem ranking_min_tie_rule :
    (∀ (ms : List RaceMeasure), ms ≠ [] → (∀ m ∈ ms, m.avg ≠ none) →
      racePacePositions ms =
        .ok (ms.map (fun m => (m, minRank ms m (m.avg.getD 0))))) ∧
    (∀ (ms : List RaceMeasure) (m m' : RaceMeasure) (v v' : ℚ),
      sameGroup m' m → m.avg = some v → m'.avg = some v' → v' = v →
      minRank ms m' v' = minRank ms m v) ∧
    (∀ (ms : List RaceMeasure) (m : RaceMeasure) (v : ℚ),
      minRank ms m v = 1 ↔
        ∀ m' ∈ ms, sameGroup m' m → ∀ w, m'.avg = some w → ¬(w < v)) ∧
    (∀ (ms : List RaceMeasure) (m m' : RaceMeasure) (v v' : ℚ),
      sameGroup m' m → m.avg = some v → m'.avg = some v' → v < v' →
      (∀ m'' ∈ ms, sameGroup m'' m → ∀ w, m''.avg = some w →
        w ≤ v ∨ v' ≤ w) →
      minRank ms m' v' = minRank ms m v + tieCount ms m v) ∧
    (racePacePositions raceExample = .ok [(exA, 1), (exB, 1), (exC, 3)]) := by
  refine ⟨?_, ?_, ?_, ?_, by rfl⟩
  · intro ms hne hnn
    have h1 : ms.isEmpty = false := by
      cases ms with
      | nil => exact absurd rfl hne
      | cons a t => rfl
    have h2 : ms.any (fun m => m.avg = none) = false := by
      rw [List.any_eq_false]
      intro m hm
      simpa using hnn m hm
    simp [racePacePositions, h1, h2]
  · intro ms m m' v v' hg _ _ hv
    subst hv
    unfold minRank
    refine congrArg _ (countP_congr fun a _ => ?_)
    unfold isBelow
    have heq : decide (sameGroup a m') = decide (sameGroup a m) :=
      decide_eq_decide.mpr (sameGroup_trans_left (a := a) hg)
    rw [heq]
  · intro ms m v
    unfold minRank
    have : 1 + ms.countP (fun m' => isBelow m' m v) = 1 ↔
        ms.countP (fun m' => isBelow m' m v) = 0 := by omega
    rw [this, List.countP_eq_zero]
    constructor
    · intro h m' hm' hg w hw hlt
      refine h m' hm' ?_
      unfold isBelow
      rw [hw]
      simp [hg, hlt]
    · intro h m' hm'
      unfold isBelow
      cases hw : m'.avg with
      | none => simp
      | some w =>
        by_cases hg : sameGroup m' m
        · simpa [hg] using h m' hm' hg w hw
        · simp [hg]
  · intro ms m m' v v' hg hmv hmv' hlt hbetween
    unfold minRank tieCount
    have hsplit : ms.countP (fun a => isBelow a m' v') =
        ms.countP (fun a => isBelow a m v ||
          (decide (sameGroup a m) && decide (a.avg = some v))) := by
      refine countP_congr fun a ha => ?_
      unfold isBelow
      have heq : decide (sameGroup a m') = decide (sameGroup a m) :=
        decide_eq_decide.mpr (sameGroup_trans_left (a := a) hg)
      rw [heq]
      by_cases hsg : sameGroup a m
      · cases hw : a.avg with
        | none => simp [hsg, hw]
        | some w =>
          have hb := hbetween a ha hsg w hw
          have hsgd : decide (sameGroup a m) = true := decide_eq_true hsg
          simp only [hsgd, hw, Bool.true_and]
          rcases lt_trichotomy w v with hwv | hwv | hwv
          · rw [decide_eq_true (lt_trans hwv hlt), decide_eq_true hwv,
              Bool.true_or]
          · have e1 : decide (w < v') = true :=
              decide_eq_true (by rw [hwv]; exact hlt)
            have e2 : decide (w < v) = false :=
              decide_eq_false (by rw [hwv]; exact lt_irrefl v)
            have e3 : decide (some w = some v) = true :=
              decide_eq_true (by rw [hwv])
            rw [e1, e2, e3]
            rfl
          · have h2 : ¬(w < v') := by
              rcases hb with hb | hb
              · exact absurd hb (not_le_of_gt hwv)
              · exact not_lt_of_ge hb
            rw [decide_eq_false h2, decide_eq_false (not_lt_of_gt hwv),
              decide_eq_false (fun hh => absurd (Option.some_inj.mp hh)
                (ne_of_gt hwv))]
            rfl
      · simp [hsg]
    rw [hsplit, countP_or_disjoint]
    · omega
    · intro a _ hcontra
      obtain ⟨h1, h2⟩ := hcontra
      simp only [Bool.and_eq_true, decide_eq_true_eq] at h2
      unfold isBelow at h1
      rw [h2.2] at h1
      simp only [Bool.and_eq_true, decide_eq_true_eq] at h1
      exact absurd h1.2 (lt_irrefl v)

/-- C3 witness: the example group evaluated through the full computation. -/
theorem ranking_min_tie_rule_witness :
    (raceExample ≠ [] ∧ ∀ m ∈ raceExample, m.avg ≠ none) ∧
    racePacePositions raceExample =
      .ok (raceExample.map
        (fun m => (m, minRank raceExample m (m.avg.getD 0)))) :=
  ⟨⟨by decide, by decide⟩,
    ranking_min_tie_rule.1 raceExample (by decide) (by decide)⟩

/-! ### Claim C4: a null metric value -/

/-- Measurement with a null avg_laptime in group (2024, 10). -/
def nullMeasure : RaceMeasure := ⟨2024, 10, "N", none⟩

/-- C4 counterexample: with a valid sibling and one null-metric measurement
in the same group, the computation does not rank the sibling and skip the
null: the whole ranking step fails (the null rank cannot be cast to int),
so no measurement receives a rank. -/
theorem ranking_null_counterexample :
    racePacePositions [exA, nullMeasure] = .error "IntCastingNaNError" := by
  rfl

/-- C4 (amended): a measurement with a missing or null avg_laptime makes
the ranking computation raise an error instead of being excluded, and no
sibling receives a rank either. -/
theorem ranking_null_raises (ms : List RaceMeasure)
    (h : ∃ m ∈ ms, m.avg = none) :
    ∃ e, racePacePositions ms = .error e := by
  obtain ⟨m, hm, hnull⟩ := h
  have h1 : ms.isEmpty = false := by
    cases ms with
    | nil => simp at hm
    | cons a t => rfl
  have h2 : ms.any (fun m => m.avg = none) = true :=
    List.any_eq_true.mpr ⟨m, hm, by simp [hnull]⟩
  exact ⟨"IntCastingNaNError", by simp [racePacePositions, h1, h2]⟩

/-- C4 amended-claim witness. -/
theorem ranking_null_raises_witness :
    (∃ m ∈ [exA, nullMeasure], m.avg = none) ∧
    (∃ e, racePacePositions [exA, nullMeasure] = .error e) :=
  ⟨by decide, ranking_null_raises [exA, nullMeasure] (by decide)⟩

/-! ### The temporal resolver (race_pace.get_most_recent_event)

The source iterates over [current_year, current_year - 1]; for each year it
fetches the schedule (any raised fetch error is caught and the loop
continues), drops events whose EventFormat is "testing", coerces EventDate
with pd.to_datetime(errors="coerce") — so an unparseable date becomes NaT,
modelled as none — keeps events with EventDate <= today (NaT compares
false), and, if any remain, returns the one at idxmax of EventDate (the
first row attaining the maximum) together with the year.  If both years
yield nothing it raises ValueError. -/

/-- A calendar event row: name, EventFormat, and coerced EventDate (none
models an unparseable date, NaT). -/
structure CalEvent where
  name : String
  format : String
  date : Option Int
deriving DecidableEq

/-- EventDate <= today, with a NaT date never past. -/
def isPast (now : Int) (e : CalEvent) : Bool :=
  match e.date with
  | some d => decide (d ≤ now)
  | none => false

/-- The non-testing events whose start instant has elapsed. -/
def qualifying (evs : List CalEvent) (now : Int) : List CalEvent :=
  (evs.filter (fun e => decide (e.format ≠ "testing"))).filter (isPast now)

/-- Date value used for the idxmax comparison (only applied to qualifying
events, whose dates are all present). -/
def eventDateVal (e : CalEvent) : Int :=
  e.date.getD 0

/-- Row at idxmax of EventDate: the first event attaining the maximal
date, none on an empty frame. -/
def latestOf (evs : List CalEvent) : Option CalEvent :=
  evs.foldl
    (fun best e =>
      match best with
      | none => some e
      | some b => if eventDateVal b < eventDateVal e then some e else best)
    none

/-- One year of the search loop: none when the fetch raises or when no
non-testing event has started yet. -/
def searchYear (provider : Int → Except Unit (List CalEvent))
    (year now : Int) : Option CalEvent :=
  match provider year with
  | .error _ => none
  | .ok evs => latestOf (qualifying evs now)

/-- The full resolver: current year first, then the previous year, else the
ValueError of the source. -/
def getMostRecentEvent (provider : Int → Except Unit (List CalEvent))
    (currentYear now : Int) : Except String (CalEvent × Int) :=
  match searchYear provider currentYear now with
  | some e => .ok (e, currentYear)
  | none =>
    match searchYear provider (currentYear - 1) now with
    | some e => .ok (e, currentYear - 1)
    | none => .error "No past events found in current or previous year"

/-- Step function of the idxmax fold. -/
def latestStep (best : Option CalEvent) (e : CalEvent) : Option CalEvent :=
  match best with
  | none => some e
  | some b => if eventDateVal b < eventDateVal e then some e else best

theorem latestOf_eq_foldl (evs : List CalEvent) :
    latestOf evs = evs.foldl latestStep none := rfl

theorem latestStep_foldl_mem :
    ∀ (evs : List CalEvent) (acc : Option CalEvent) (r : CalEvent),
      evs.foldl latestStep acc = some r → acc = some r ∨ r ∈ evs := by
  intro evs
  induction evs with
  | nil => exact fun acc r h => Or.inl h
  | cons e t ih =>
    intro acc r h
    rw [List.foldl_cons] at h
    rcases ih _ r h with h1 | h1
    · cases acc with
      | none =>
        have h2 : e = r := by simpa [latestStep] using h1
        exact Or.inr (by rw [← h2]; exact List.mem_cons_self e t)
      | some b =>
        by_cases hlt : eventDateVal b < eventDateVal e
        · have h2 : e = r := by simpa [latestStep, hlt] using h1
          exact Or.inr (by rw [← h2]; exact List.mem_cons_self e t)
        · have h2 : b = r := by simpa [latestStep, hlt] using h1
          exact Or.inl (by rw [h2])
    · exact Or.inr (List.mem_cons_of_mem e h1)

theorem latestStep_foldl_le :
    ∀ (evs : List CalEvent) (acc : Option CalEvent) (r : CalEvent),
      evs.foldl latestStep acc = some r →
      (∀ b, acc = some b → eventDateVal b ≤ eventDateVal r) ∧
      (∀ x ∈ evs, eventDateVal x ≤ eventDateVal r) := by
  intro evs
  induction evs with
  | nil =>
    intro acc r h
    simp only [List.foldl_nil] at h
    refine ⟨fun b hb => ?_, by simp⟩
    rw [hb] at h
    rw [Option.some_inj.mp h]
  | cons e t ih =>
    intro acc r h
    rw [List.foldl_cons] at h
    obtain ⟨ih1, ih2⟩ := ih _ r h
    have hein : eventDateVal e ≤ eventDateVal r := by
      cases acc with
      | none => exact ih1 e (by simp [latestStep])
      | some b =>
        by_cases hlt : eventDateVal b < eventDateVal e
        · exact ih1 e (by simp [latestStep, hlt])
        · exact le_trans (le_of_not_lt hlt) (ih1 b (by simp [latestStep, hlt]))
    refine ⟨?_, fun x hx => ?_⟩
    · intro b hb
      subst hb
      by_cases hlt : eventDateVal b < eventDateVal e
      · exact le_of_lt (lt_of_lt_of_le hlt hein)
      · exact ih1 b (by simp [latestStep, hlt])
    · rcases List.mem_cons.mp hx with hx | hx
      · rw [hx]
        exact hein
      · exact ih2 x hx

theorem latestOf_mem {evs : List CalEvent} {e : CalEvent}
    (h : latestOf evs = some e) : e ∈ evs := by
  rw [latestOf_eq_foldl] at h
  rcases latestStep_foldl_mem evs none e h with h1 | h1
  · exact absurd h1 (by simp)
  · exact h1

theorem latestOf_le {evs : List CalEvent} {e : CalEvent}
    (h : latestOf evs = some e) :
    ∀ x ∈ evs, eventDateVal x ≤ eventDateVal e := by
  rw [latestOf_eq_foldl] at h
  exact (latestStep_foldl_le evs none e h).2

theorem searchYear_eq_some {provider : Int → Except Unit (List CalEvent)}
    {y now : Int} {e : CalEvent} (h : searchYear provider y now = some e) :
    ∃ evs, provider y = .ok evs ∧ e ∈ evs ∧ e.format ≠ "testing" ∧
      ∃ d, e.date = some d ∧ d ≤ now ∧
        ∀ e' ∈ qualifying evs now, ∀ d', e'.date = some d' → d' ≤ d := by
  unfold searchYear at h
  cases hp : provider y with
  | error u =>
    rw [hp] at h
    simp at h
  | ok evs =>
    rw [hp] at h
    have hmem := latestOf_mem h
    have hle := latestOf_le h
    have hmemq := hmem
    rw [qualifying] at hmem
    obtain ⟨hm1, hpast⟩ := List.mem_filter.mp hmem
    obtain ⟨hin, hfmt⟩ := List.mem_filter.mp hm1
    refine ⟨evs, rfl, hin, of_decide_eq_true hfmt, ?_⟩
    unfold isPast at hpast
    cases hd : e.date with
    | none =>
      rw [hd] at hpast
      simp at hpast
    | some d =>
      rw [hd] at hpast
      refine ⟨d, rfl, of_decide_eq_true hpast, ?_⟩
      intro e' he' d' hd'
      have := hle e' he'
      rw [eventDateVal, eventDateVal, hd, hd'] at this
      simpa using this

theorem getMostRecentEvent_ok {provider : Int → Except Unit (List CalEvent)}
    {cy now : Int} {e : CalEvent} {y : Int}
    (h : getMostRecentEvent provider cy now = .ok (e, y)) :
    (searchYear provider cy now = some e ∧ y = cy) ∨
    (searchYear provider cy now = none ∧
      searchYear provider (cy - 1) now = some e ∧ y = cy - 1) := by
  unfold getMostRecentEvent at h
  cases hs1 : searchYear provider cy now with
  | some e0 =>
    rw [hs1] at h
    simp only [Except.ok.injEq, Prod.mk.injEq] at h
    exact Or.inl ⟨by rw [h.1], h.2.symm⟩
  | none =>
    rw [hs1] at h
    cases hs2 : searchYear provider (cy - 1) now with
    | some e1 =>
      rw [hs2] at h
      simp only [Except.ok.injEq, Prod.mk.injEq] at h
      exact Or.inr ⟨rfl, by rw [h.1], h.2.symm⟩
    | none =>
      rw [hs2] at h
      exact absurd h (by simp)

/-! ### Claim C5: season search order and latest-past-event selection -/

/-- C5: a successful resolution returns a season that is the current or the
previous year; the previous year is only used when the current year has no
qualifying event; the returned event comes from the returned season's
fetched calendar, is not a testing event, has a parsed start instant at
most now, and that instant is maximal among the season's qualifying events;
the current season is preferred whenever it qualifies, the previous season
is used when only it qualifies, and testing events are never qualifying. -/
theorem most_recent_event_selection :
    (∀ (provider : Int → Except Unit (List CalEvent)) (cy now : Int)
        (e : CalEvent) (y : Int),
      getMostRecentEvent provider cy now = .ok (e, y) →
      (y = cy ∨ y = cy - 1) ∧
      (y = cy - 1 → searchYear provider cy now = none) ∧
      ∃ evs, provider y = .ok evs ∧ e ∈ evs ∧ e.format ≠ "testing" ∧
        ∃ d, e.date = some d ∧ d ≤ now ∧
          ∀ e' ∈ qualifying evs now, ∀ d', e'.date = some d' → d' ≤ d) ∧
    (∀ (provider : Int → Except Unit (List CalEvent)) (cy now : Int)
        (e : CalEvent),
      searchYear provider cy now = some e →
      getMostRecentEvent provider cy now = .ok (e, cy)) ∧
    (∀ (provider : Int → Except Unit (List CalEvent)) (cy now : Int)
        (e : CalEvent),
      searchYear provider cy now = none →
      searchYear provider (cy - 1) now = some e →
      getMostRecentEvent provider cy now = .ok (e, cy - 1)) ∧
    (∀ (e : CalEvent) (evs : List CalEvent) (now : Int),
      e.format = "testing" → e ∉ qualifying evs now) := by
  refine ⟨?_, ?_, ?_, ?_⟩
  · intro provider cy now e y h
    rcases getMostRecentEvent_ok h with ⟨hs, rfl⟩ | ⟨hs1, hs2, rfl⟩
    · exact ⟨Or.inl rfl, fun h2 => absurd h2 (by omega),
        searchYear_eq_some hs⟩
    · exact ⟨Or.inr rfl, fun _ => hs1, searchYear_eq_some hs2⟩
  · intro provider cy now e h
    simp [getMostRecentEvent, h]
  · intro provider cy now e h1 h2
    simp [getMostRecentEvent, h1, h2]
  · intro e evs now hfmt hmem
    rw [qualifying] at hmem
    obtain ⟨hm1, _⟩ := List.mem_filter.mp hmem
    obtain ⟨_, hf⟩ := List.mem_filter.mp hm1
    exact of_decide_eq_true hf hfmt

/-- Season 2025 calendar: a single event that has not started by now=100. -/
def futureGP : CalEvent := ⟨"Future GP", "conventional", some 500⟩

/-- Season 2024 calendar: an early past event. -/
def earlyGP : CalEvent := ⟨"Early GP", "conventional", some 10⟩

/-- Season 2024 calendar: the latest past competitive event. -/
def lateGP : CalEvent := ⟨"Late GP", "conventional", some 50⟩

/-- Season 2024 calendar: a testing session dated after lateGP. -/
def winterTest : CalEvent := ⟨"Winter Test", "testing", some 60⟩

/-- Provider with a not-yet-started current season and a previous season
holding two competitive events and a later testing session. -/
def provTwoSeasons : Int → Except Unit (List CalEvent) := fun y =>
  if y = 2025 then .ok [futureGP]
  else if y = 2024 then .ok [earlyGP, winterTest, lateGP]
  else .ok []

/-- C5 witness: at now=100 the resolver falls back to season 2024 and
returns lateGP, not the later-dated testing session. -/
theorem most_recent_event_selection_witness :
    (getMostRecentEvent provTwoSeasons 2025 100 = .ok (lateGP, 2024)) ∧
    (((2024 : Int) = 2025 ∨ (2024 : Int) = 2025 - 1) ∧
      ((2024 : Int) = 2025 - 1 → searchYear provTwoSeasons 2025 100 = none) ∧
      ∃ evs, provTwoSeasons 2024 = .ok evs ∧ lateGP ∈ evs ∧
        lateGP.format ≠ "testing" ∧
        ∃ d, lateGP.date = some d ∧ d ≤ 100 ∧
          ∀ e' ∈ qualifying evs 100, ∀ d', e'.date = some d' → d' ≤ d) :=
  ⟨by rfl,
    most_recent_event_selection.1 provTwoSeasons 2025 100 lateGP 2024
      (by rfl)⟩

/-! ### Claim C6: exhaustion error and provider-error continuation -/

/-- C6: the resolver raises its ValueError exactly when neither the current
nor the previous season has a qualifying past event; a season whose fetch
raises is treated as having no qualifying event, and a fetch error in the
current season still lets the previous season answer. -/
theorem no_past_event_error_iff :
    (∀ (provider : Int → Except Unit (List CalEvent)) (cy now : Int),
      getMostRecentEvent provider cy now =
          .error "No past events found in current or previous year" ↔
        searchYear provider cy now = none ∧
          searchYear provider (cy - 1) now = none) ∧
    (∀ (provider : Int → Except Unit (List CalEvent)) (y now : Int)
        (err : Unit),
      provider y = .error err → searchYear provider y now = none) ∧
    (∀ (provider : Int → Except Unit (List CalEvent)) (cy now : Int)
        (err : Unit) (e : CalEvent),
      provider cy = .error err →
      searchYear provider (cy - 1) now = some e →
      getMostRecentEvent provider cy now = .ok (e, cy - 1)) := by
  refine ⟨?_, ?_, ?_⟩
  · intro provider cy now
    constructor
    · intro h
      cases hs1 : searchYear provider cy now with
      | some e0 => simp [getMostRecentEvent, hs1] at h
      | none =>
        cases hs2 : searchYear provider (cy - 1) now with
        | some e1 => simp [getMostRecentEvent, hs1, hs2] at h
        | none => exact ⟨rfl, rfl⟩
    · intro h
      simp [getMostRecentEvent, h.1, h.2]
  · intro provider y now err h
    simp [searchYear, h]
  · intro provider cy now err e hp hs2
    have hs1 : searchYear provider cy now = none := by simp [searchYear, hp]
    simp [getMostRecentEvent, hs1, hs2]

/-- Provider with no events at all in any season. -/
def provEmpty : Int → Except Unit (List CalEvent) := fun _ => .ok []

/-- Provider whose current-season fetch raises while the previous season
has a past event. -/
def provErrThenOk : Int → Except Unit (List CalEvent) := fun y =>
  if y = 2025 then .error () else .ok [earlyGP]

/-- C6 witness: exhaustion on an empty pair of seasons, and continuation
past a current-season fetch error. -/
theorem no_past_event_error_iff_witness :
    (getMostRecentEvent provEmpty 2025 100 =
      .error "No past events found in current or previous year") ∧
    (getMostRecentEvent provErrThenOk 2025 100 = .ok (earlyGP, 2024)) :=
  ⟨(no_past_event_error_iff.1 provEmpty 2025 100).mpr ⟨rfl, rfl⟩,
    no_past_event_error_iff.2.2 provErrThenOk 2025 100 () earlyGP
      (by rfl) (by rfl)⟩

/-! ### Claim C10: unparseable dates never qualify -/

/-- C10: a resolved event always carries a parsed start instant that is at
most now; an event whose coerced date is null never passes the past-event
filter; and a season whose events all have null dates yields no qualifying
event, so the search falls through to the next season or to the error. -/
theorem resolver_never_returns_unparsed_date :
    (∀ (provider : Int → Except Unit (List CalEvent)) (cy now : Int)
        (e : CalEvent) (y : Int),
      getMostRecentEvent provider cy now = .ok (e, y) →
      ∃ d, e.date = some d ∧ d ≤ now) ∧
    (∀ (e : CalEvent) (evs : List CalEvent) (now : Int),
      e.date = none → e ∉ qualifying evs now) ∧
    (∀ (provider : Int → Except Unit (List CalEvent)) (y now : Int)
        (evs : List CalEvent),
      provider y = .ok evs → (∀ e ∈ evs, e.date = none) →
      searchYear provider y now = none) := by
  refine ⟨?_, ?_, ?_⟩
  · intro provider cy now e y h
    rcases getMostRecentEvent_ok h with ⟨hs, _⟩ | ⟨_, hs, _⟩ <;>
      · obtain ⟨evs, _, _, _, d, hd, hdle, _⟩ := searchYear_eq_some hs
        exact ⟨d, hd, hdle⟩
  · intro e evs now hdate hmem
    rw [qualifying] at hmem
    obtain ⟨_, hpast⟩ := List.mem_filter.mp hmem
    unfold isPast at hpast
    rw [hdate] at hpast
    simp at hpast
  · intro provider y now evs hp hall
    have hq : qualifying evs now = [] := by
      rw [qualifying, List.filter_eq_nil_iff]
      intro e he
      have he2 := List.mem_filter.mp he
      unfold isPast
      rw [hall e he2.1]
      simp
    simp [searchYear, hp, hq, latestOf]

/-- Provider whose current season has only an event with an unparseable
date, while the previous season has a normal past event. -/
def provUnparsed : Int → Except Unit (List CalEvent) := fun y =>
  if y = 2025 then .ok [⟨"NaT GP", "conventional", none⟩]
  else .ok [earlyGP]

/-- C10 witness: the all-unparseable current season yields nothing and the
resolver falls through to the previous season. -/
theorem resolver_never_returns_unparsed_date_witness :
    (∃ d, lateGP.date = some d ∧ d ≤ 100) ∧
    (searchYear provUnparsed 2025 100 = none) ∧
    (getMostRecentEvent provUnparsed 2025 100 = .ok (earlyGP, 2024)) :=
  ⟨resolver_never_returns_unparsed_date.1 provTwoSeasons 2025 100 lateGP
      2024 (by rfl),
    resolver_never_returns_unparsed_date.2.2 provUnparsed 2025 100
      [⟨"NaT GP", "conventional", none⟩] (by rfl) (by decide),
    by rfl⟩

/-! ### The run trace of race_pace.main

main() resolves the most recent event (fetching up to two season schedules
from the provider), loads the session data for it (another provider call),
prepares the documents, and only then calls upsert_to_mongo, whose first
action is the MONGODB_URI check: a missing URI is logged and the function
returns without raising and without touching the store.  The effect trace
records provider calls, store connections, bulk writes, error log lines and
raised exceptions in execution order. -/

/-- Externally visible effects of one run, in order. -/
inductive Effect where
  | fetchSchedule (year : Int)
  | loadSession (event : String)
  | logError (msg : String)
  | connectStore
  | bulkWrite (nOps : Nat)
  | raised (msg : String)
deriving DecidableEq

/-- Effects of upsert_to_mongo: a missing MONGODB_URI is logged and nothing
else happens; otherwise the client connects, logs a connection failure, or
bulk-writes the non-empty operation list. -/
def upsertEffects (uri : Option String) (connectOk : Bool) (nOps : Nat) :
    List Effect :=
  match uri with
  | none => [.logError "MONGODB_URI undefined"]
  | some _ =>
    if connectOk then
      if nOps = 0 then [.connectStore] else [.connectStore, .bulkWrite nOps]
    else [.connectStore, .logError "Couldn't connect to MongoDB"]

/-- Provider calls of get_most_recent_event: the current season schedule is
always fetched; the previous season is fetched only when the current one
yields nothing. -/
def resolveEffects (provider : Int → Except Unit (List CalEvent))
    (cy now : Int) : List Effect :=
  match searchYear provider cy now with
  | some _ => [.fetchSchedule cy]
  | none => [.fetchSchedule cy, .fetchSchedule (cy - 1)]

/-- Trace of race_pace.main: resolution first (raising on exhaustion), then
the session load for the resolved event, then the upsert step. -/
def mainEffects (provider : Int → Except Unit (List CalEvent))
    (cy now : Int) (uri : Option String) (connectOk : Bool) (nOps : Nat) :
    List Effect :=
  match getMostRecentEvent provider cy now with
  | .error msg => resolveEffects provider cy now ++ [.raised msg]
  | .ok (e, _) =>
    resolveEffects provider cy now ++ [.loadSession e.name] ++
      upsertEffects uri connectOk nOps

theorem resolveEffects_fetch (provider : Int → Except Unit (List CalEvent))
    (cy now : Int) :
    ∀ x ∈ resolveEffects provider cy now, ∃ yy, x = Effect.fetchSchedule yy := by
  intro x hx
  unfold resolveEffects at hx
  cases hs : searchYear provider cy now with
  | some e =>
    rw [hs] at hx
    simp at hx
    exact ⟨cy, hx⟩
  | none =>
    rw [hs] at hx
    simp at hx
    rcases hx with h | h
    · exact ⟨cy, h⟩
    · exact ⟨cy - 1, h⟩

theorem resolveEffects_head (provider : Int → Except Unit (List CalEvent))
    (cy now : Int) :
    ∃ rest, resolveEffects provider cy now = Effect.fetchSchedule cy :: rest := by
  unfold resolveEffects
  cases searchYear provider cy now with
  | some e => exact ⟨[], rfl⟩
  | none => exact ⟨[Effect.fetchSchedule (cy - 1)], rfl⟩

/-! ### Claim C9: a missing connection address -/

/-- C9 counterexample: with MONGODB_URI absent, the run does not abort
before any upstream provider calls; the trace starts with the provider
fetches and the session load, and only then logs the configuration error
at the write step. -/
theorem config_error_counterexample :
    mainEffects provTwoSeasons 2025 100 none true 20 =
      [Effect.fetchSchedule 2025, Effect.fetchSchedule 2024,
        Effect.loadSession "Late GP",
        Effect.logError "MONGODB_URI undefined"] ∧
    Effect.fetchSchedule 2025 ∈
      mainEffects provTwoSeasons 2025 100 none true 20 :=
  ⟨by rfl, by decide⟩

/-- C9 (amended): with MONGODB_URI absent the configuration error is logged
and absorbed — the run raises nothing and never connects to or writes the
store — but the upstream provider calls of the run have already happened:
the abort takes effect at the write step, not before the provider calls. -/
theorem config_missing_uri_skips_write
    (provider : Int → Except Unit (List CalEvent)) (cy now : Int)
    (connectOk : Bool) (nOps : Nat) (e : CalEvent) (y : Int)
    (h : getMostRecentEvent provider cy now = .ok (e, y)) :
    Effect.logError "MONGODB_URI undefined" ∈
      mainEffects provider cy now none connectOk nOps ∧
    Effect.connectStore ∉ mainEffects provider cy now none connectOk nOps ∧
    (∀ n, Effect.bulkWrite n ∉ mainEffects provider cy now none connectOk nOps) ∧
    (∀ m, Effect.raised m ∉ mainEffects provider cy now none connectOk nOps) ∧
    Effect.fetchSchedule cy ∈ mainEffects provider cy now none connectOk nOps := by
  have hfetch := resolveEffects_fetch provider cy now
  obtain ⟨rest, hres⟩ := resolveEffects_head provider cy now
  refine ⟨?_, ?_, ?_, ?_, ?_⟩
  · simp [mainEffects, h, upsertEffects]
  · intro hx
    simp [mainEffects, h, upsertEffects] at hx
    obtain ⟨yy, hyy⟩ := hfetch _ hx
    exact Effect.noConfusion hyy
  · intro n hx
    simp [mainEffects, h, upsertEffects] at hx
    obtain ⟨yy, hyy⟩ := hfetch _ hx
    exact Effect.noConfusion hyy
  · intro m hx
    simp [mainEffects, h, upsertEffects] at hx
    obtain ⟨yy, hyy⟩ := hfetch _ hx
    exact Effect.noConfusion hyy
  · simp [mainEffects, h, hres]

/-- C9 amended-claim witness: the concrete two-season run with no URI. -/
theorem config_missing_uri_skips_write_witness :
    (getMostRecentEvent provTwoSeasons 2025 100 = .ok (lateGP, 2024)) ∧
    (Effect.logError "MONGODB_URI undefined" ∈
        mainEffects provTwoSeasons 2025 100 none true 20 ∧
      Effect.connectStore ∉ mainEffects provTwoSeasons 2025 100 none true 20 ∧
      (∀ n, Effect.bulkWrite n ∉
        mainEffects provTwoSeasons 2025 100 none true 20) ∧
      (∀ m, Effect.raised m ∉
        mainEffects provTwoSeasons 2025 100 none true 20) ∧
      Effect.fetchSchedule 2025 ∈
        mainEffects provTwoSeasons 2025 100 none true 20) :=
  ⟨by rfl,
    config_missing_uri_skips_write provTwoSeasons 2025 100 true 20 lateGP
      2024 (by rfl)⟩

end VisionF1
